import Mathlib

/-!
Verification of the point-in-polygon containment core of the
neighborhood address checker (`search2.py`): the ray-casting
containment test `is_point_in_polygon`, the first-match resolver
`find_neighborhood` and the all-matches resolver
`find_all_neighborhoods`.  Coordinates are modelled as exact
rationals; Python lists become `List`, `Optional[str]` becomes
`Option String`.
-/

/-- The `Coordinate` dataclass of `search2.py`: a latitude / longitude
pair in degrees. -/
structure Coordinate where
  lat : ℚ
  lng : ℚ
deriving DecidableEq, Repr

/-- The `Neighborhood` dataclass of `search2.py`: a name paired with a
polygon given as an ordered vertex list. -/
structure Neighborhood where
  name : String
  coordinates : List Coordinate
deriving DecidableEq, Repr

/-- Index access `polygon[i]` of the Python loop.  Every access in the
loop is in range, so the default value is never returned there. -/
def polyGet (polygon : List Coordinate) (i : Nat) : Coordinate :=
  polygon.getD i ⟨0, 0⟩

/-- The crossing condition `(yi > point.lat) != (yj > point.lat)` of
`search2.py` line 37, for the edge from vertex `vi` to vertex `vj`. -/
def crossingCond (point vi vj : Coordinate) : Bool :=
  decide (vi.lat > point.lat) != decide (vj.lat > point.lat)

/-- The `intersect` expression of `search2.py` lines 37-38: the
crossing condition conjoined with
`point.lng < (xj - xi) * (point.lat - yi) / (yj - yi) + xi`. -/
def intersectTest (point vi vj : Coordinate) : Bool :=
  crossingCond point vi vj &&
    decide (point.lng <
      (vj.lng - vi.lng) * (point.lat - vi.lat) / (vj.lat - vi.lat) + vi.lng)

/-- The function `is_point_in_polygon` of `search2.py`: after the `len(polygon) < 3`
guard, iterate `i` over all indices while the second state component
`j` carries the previous index (initialised to the last index), toggle
`inside` whenever the `intersect` test fires, and return `inside`. -/
def is_point_in_polygon (point : Coordinate) (polygon : List Coordinate) : Bool :=
  if polygon.length < 3 then
    false
  else
    ((List.range polygon.length).foldl
      (fun (st : Bool × Nat) i =>
        (if intersectTest point (polyGet polygon i) (polyGet polygon st.2) then
          !st.1
        else
          st.1, i))
      (false, polygon.length - 1)).1

/-- The function `find_neighborhood` of `search2.py`: scan the list in order and
return the name of the first neighborhood whose polygon contains the
point, or `none`. -/
def find_neighborhood (point : Coordinate) (neighborhoods : List Neighborhood) :
    Option String :=
  match neighborhoods with
  | [] => none
  | nb :: rest =>
    if is_point_in_polygon point nb.coordinates then
      some nb.name
    else
      find_neighborhood point rest

/-- The function `find_all_neighborhoods` of `search2.py`: the list comprehension
collecting, in list order, the name of every neighborhood whose
polygon contains the point. -/
def find_all_neighborhoods (point : Coordinate) (neighborhoods : List Neighborhood) :
    List String :=
  match neighborhoods with
  | [] => []
  | nb :: rest =>
    if is_point_in_polygon point nb.coordinates then
      nb.name :: find_all_neighborhoods point rest
    else
      find_all_neighborhoods point rest

/-- The ray-casting algorithm exactly as the specification words it:
iterate the edges that connect vertex `i` to the previous vertex with
the last vertex wrapping to the first, toggle an initially-false
`inside` flag exactly when
`((yi > point.lat) != (yj > point.lat))` and
`point.lng < (xj - xi) * (point.lat - yi) / (yj - yi) + xi`, and
return the flag after all edges. -/
def rayCastSpec (point : Coordinate) (polygon : List Coordinate) : Bool :=
  (List.range polygon.length).foldl
    (fun inside i =>
      let vi := polyGet polygon i
      let vj := polyGet polygon ((i + polygon.length - 1) % polygon.length)
      if (decide (vi.lat > point.lat) != decide (vj.lat > point.lat)) &&
          decide (point.lng <
            (vj.lng - vi.lng) * (point.lat - vi.lat) / (vj.lat - vi.lat) + vi.lng) then
        !inside
      else
        inside)
    false

/-- The directed edges visited by the loop: vertex `i` paired with
vertex `i - 1 mod n`, i.e. the list zipped with its own right
rotation. -/
def cyclicPairs (l : List Coordinate) : List (Coordinate × Coordinate) :=
  match l with
  | [] => []
  | a :: _ => l.zip (l.getLastD a :: l.dropLast)

/-- The `intersect` test on a directed edge given as a pair. -/
def edgeTest (point : Coordinate) (e : Coordinate × Coordinate) : Bool :=
  intersectTest point e.1 e.2

/-- Number of edges of the polygon on which the `intersect` test
fires. -/
def crossNum (point : Coordinate) (l : List Coordinate) : Nat :=
  (cyclicPairs l).countP (edgeTest point)

/-- Modelled from the spec: the error taxonomy of the construction
boundary (`InvalidCoordinate` for values not representable as real
numbers).  No such validating constructor appears in `search2.py`
itself; the spec requires it of the boundary where coordinates are
built from raw input. -/
inductive CoordError where
  | InvalidCoordinate
deriving DecidableEq, Repr

/-- Modelled from the spec: a raw caller-supplied coordinate
component, either a numeric value or non-numeric text that cannot be
represented as a real number. -/
inductive RawValue where
  | num (value : ℚ)
  | nonNumeric (text : String)
deriving DecidableEq, Repr

/-- Whether a raw component is numeric. -/
def RawValue.isNumeric : RawValue → Bool
  | .num _ => true
  | .nonNumeric _ => false

/-- Modelled from the spec: fail-fast `Coordinate` construction at the
boundary — non-numeric input yields the `InvalidCoordinate` error
kind, numeric input always succeeds. -/
def mkCoordinate : RawValue → RawValue → Except CoordError Coordinate
  | .num lat, .num lng => .ok ⟨lat, lng⟩
  | _, _ => .error .InvalidCoordinate

/-- Modelled from the spec: the resolution pipeline — construct the
coordinate at the boundary, then run the resolver on it. -/
def resolveRaw (rlat rlng : RawValue) (neighborhoods : List Neighborhood) :
    Except CoordError (Option String) :=
  match mkCoordinate rlat rlng with
  | .error e => .error e
  | .ok point => .ok (find_neighborhood point neighborhoods)

/-! ### Generic fold lemmas -/

/-- Folding a toggle over a list computes the parity of the number of
elements satisfying the predicate. -/
theorem foldl_toggle_eq {α : Type} (p : α → Bool) (l : List α) (b : Bool) :
    l.foldl (fun inside e => if p e then !inside else inside) b
      = (b != decide (l.countP p % 2 = 1)) := by
  induction l generalizing b with
  | nil => simp
  | cons e t ih =>
    rw [List.foldl_cons, ih, List.countP_cons]
    by_cases hp : p e = true
    · rcases Nat.mod_two_eq_zero_or_one (t.countP p) with h | h
      · have h1 : (t.countP p + 1) % 2 = 1 := by omega
        cases b <;> simp [hp, h, h1]
      · have h1 : (t.countP p + 1) % 2 = 0 := by omega
        cases b <;> simp [hp, h, h1]
    · simp [hp]

/-- In the fold of the Python loop the second state component always
holds the previous index. -/
theorem foldl_track_prev (g : Bool → Nat → Nat → Bool) :
    ∀ (k start : Nat) (acc : Bool),
      ((List.range' (start + 1) k).foldl
          (fun st i => (g st.1 i st.2, i)) (acc, start)).1
        = (List.range' (start + 1) k).foldl (fun a i => g a i (i - 1)) acc := by
  intro k
  induction k with
  | zero => intro start acc; rfl
  | succ k ih =>
    intro start acc
    rw [List.range'_succ, List.foldl_cons, List.foldl_cons]
    simpa using ih (start + 1) (g acc (start + 1) start)

/-- The previous-index fold over all indices, started at the last
index, equals the fold that pairs index `i` with `(i + n - 1) % n`. -/
theorem foldl_range_prev (f : Bool → Nat → Nat → Bool) (n : Nat) (h : 1 ≤ n) :
    ((List.range n).foldl (fun st i => (f st.1 i st.2, i)) ((false : Bool), n - 1)).1
      = (List.range n).foldl (fun a i => f a i ((i + n - 1) % n)) false := by
  obtain ⟨m, rfl⟩ : ∃ m, n = m + 1 := ⟨n - 1, by omega⟩
  have hsplit : List.range (m + 1) = 0 :: List.range' 1 m := by
    rw [List.range_eq_range']
    simpa using List.range'_succ 0 m 1
  rw [hsplit, List.foldl_cons, List.foldl_cons]
  have h0 : (0 + (m + 1) - 1) % (m + 1) = m := by
    have he : 0 + (m + 1) - 1 = m := by omega
    rw [he]
    exact Nat.mod_eq_of_lt (by omega)
  show ((List.range' 1 m).foldl (fun st i => (f st.1 i st.2, i)) (f false 0 m, 0)).1
      = (List.range' 1 m).foldl (fun a i => f a i ((i + (m + 1) - 1) % (m + 1)))
        (f false 0 ((0 + (m + 1) - 1) % (m + 1)))
  rw [h0]
  have htrack := foldl_track_prev f m 0 (f false 0 m)
  simp only [Nat.zero_add] at htrack
  rw [htrack]
  refine List.foldl_ext _ _ _ ?_
  intro acc i hi
  rcases List.mem_range'_1.mp hi with ⟨h1, h2⟩
  have he : i + (m + 1) - 1 = (i - 1) + (m + 1) := by omega
  rw [he, Nat.add_mod_right, Nat.mod_eq_of_lt (by omega)]

/-! ### The edge list seen by the loop -/

/-- The edge list, described by indices: edge `i` joins vertex `i` and
vertex `(i + n - 1) % n`. -/
theorem cyclicPairs_eq_map (l : List Coordinate) :
    cyclicPairs l =
      (List.range l.length).map
        (fun i => (polyGet l i, polyGet l ((i + l.length - 1) % l.length))) := by
  match l with
  | [] => rfl
  | a :: t =>
    have hne : (a :: t) ≠ [] := List.cons_ne_nil a t
    have hlast : (a :: t).getLastD a = (a :: t).get ⟨(a :: t).length - 1, by simp⟩ := by
      rw [List.getLastD_eq_getLast?, List.getLast?_eq_getLast _ hne]
      simp [List.getLast_eq_getElem]
    apply List.ext_getElem
    · simp [cyclicPairs, List.length_zip]
    · intro i h1 h2
      have hi : i < (a :: t).length := by
        simpa [cyclicPairs, List.length_zip] using h1
      have hzip : i < ((a :: t).zip
          ((a :: t).getLastD a :: (a :: t).dropLast)).length := h1
      show ((a :: t).zip ((a :: t).getLastD a :: (a :: t).dropLast))[i] = _
      rw [List.getElem_zip, List.getElem_map, List.getElem_range]
      have hfst : (a :: t)[i] = polyGet (a :: t) i :=
        (List.getD_eq_getElem _ _ hi).symm
      rw [hfst]
      rcases i with _ | j
      · have hmod : (0 + (a :: t).length - 1) % (a :: t).length
            = (a :: t).length - 1 := by
          have he : 0 + (a :: t).length - 1 = (a :: t).length - 1 := by omega
          rw [he]
          exact Nat.mod_eq_of_lt (by simp)
        have hsnd : ((a :: t).getLastD a :: (a :: t).dropLast)[0]
            = polyGet (a :: t) ((a :: t).length - 1) := by
          show (a :: t).getLastD a = polyGet (a :: t) ((a :: t).length - 1)
          rw [hlast, polyGet, List.getD_eq_getElem _ _ (by simp)]
          simp [List.get_eq_getElem]
        rw [hsnd, hmod]
      · have hj : j < (a :: t).dropLast.length := by
          simp only [List.length_dropLast, List.length_cons]
          simp only [List.length_cons] at hi
          omega
        have hmod : (j + 1 + (a :: t).length - 1) % (a :: t).length = j := by
          have he : j + 1 + (a :: t).length - 1 = j + (a :: t).length := by omega
          rw [he, Nat.add_mod_right]
          exact Nat.mod_eq_of_lt (by omega)
        have hcons : j + 1 < ((a :: t).getLastD a :: (a :: t).dropLast).length := by
          simp only [List.length_cons]
          omega
        have hsnd : ((a :: t).getLastD a :: (a :: t).dropLast)[j + 1]
            = polyGet (a :: t) j := by
          show (a :: t).dropLast[j] = polyGet (a :: t) j
          rw [List.getElem_dropLast, polyGet,
            List.getD_eq_getElem _ _ (by omega)]
        rw [hsnd, hmod]

/-- The specification's ray cast returns the parity of the number of
crossing edges. -/
theorem rayCastSpec_eq_parity (point : Coordinate) (l : List Coordinate) :
    rayCastSpec point l = decide (crossNum point l % 2 = 1) := by
  have hfold := foldl_toggle_eq
    (fun i => edgeTest point
      (polyGet l i, polyGet l ((i + l.length - 1) % l.length)))
    (List.range l.length) false
  have hcount : (List.range l.length).countP
      (fun i => edgeTest point
        (polyGet l i, polyGet l ((i + l.length - 1) % l.length)))
      = crossNum point l := by
    rw [crossNum, cyclicPairs_eq_map, List.countP_map]
    rfl
  rw [hcount] at hfold
  have hshape : rayCastSpec point l
      = (List.range l.length).foldl
        (fun inside i =>
          if edgeTest point
              (polyGet l i, polyGet l ((i + l.length - 1) % l.length)) then
            !inside
          else
            inside)
        false := by
    rw [rayCastSpec]
    refine List.foldl_ext _ _ _ ?_
    intro b i _
    rfl
  rw [hshape, hfold]
  cases hb : decide (crossNum point l % 2 = 1) <;> rfl

/-! ### The source loop agrees with the spec's algorithm -/

/-- For a genuine polygon the loop of `is_point_in_polygon` computes
exactly the specified ray cast. -/
theorem is_point_in_polygon_eq_spec (point : Coordinate) (l : List Coordinate)
    (h : 3 ≤ l.length) :
    is_point_in_polygon point l = rayCastSpec point l := by
  rw [is_point_in_polygon, if_neg (by omega)]
  exact foldl_range_prev
    (fun b i j => if intersectTest point (polyGet l i) (polyGet l j) then !b else b)
    l.length (by omega)

/-- Master equation: containment is the guard conjoined with the
parity of the crossing count. -/
theorem is_point_in_polygon_eq_parity (point : Coordinate) (l : List Coordinate) :
    is_point_in_polygon point l
      = (decide (3 ≤ l.length) && decide (crossNum point l % 2 = 1)) := by
  by_cases h : 3 ≤ l.length
  · rw [is_point_in_polygon_eq_spec point l h, rayCastSpec_eq_parity,
      decide_eq_true h, Bool.true_and]
  · rw [is_point_in_polygon, if_pos (by omega), decide_eq_false h, Bool.false_and]

/-! ### Rotation and reversal of the vertex list -/

/-- Closed form of the edge list of a list ending in `a`. -/
theorem cyclicPairs_concat (xs : List Coordinate) (a : Coordinate) :
    cyclicPairs (xs ++ [a]) = (xs ++ [a]).zip (a :: xs) := by
  match xs with
  | [] => rfl
  | x :: xs =>
    show ((x :: xs) ++ [a]).zip
        (((x :: xs) ++ [a]).getLastD x :: ((x :: xs) ++ [a]).dropLast) = _
    rw [List.getLastD_concat, List.dropLast_concat]

/-- Rotating a nonempty list one step moves the head to the back. -/
theorem rotate_one_cons (a : Coordinate) (t : List Coordinate) :
    (a :: t).rotate 1 = t ++ [a] := by
  simpa using List.rotate_cons_succ t a 0

/-- One-step rotation permutes the edge list. -/
theorem cyclicPairs_rotate_one_perm (l : List Coordinate) :
    (cyclicPairs (l.rotate 1)).Perm (cyclicPairs l) := by
  match l with
  | [] => simp [List.rotate_nil]
  | a :: t =>
    rw [rotate_one_cons]
    rcases List.eq_nil_or_concat t with rfl | ⟨ys, b, rfl⟩
    · exact List.Perm.refl _
    · rw [List.concat_eq_append]
      have hlhs : cyclicPairs ((ys ++ [b]) ++ [a])
          = (ys ++ [b]).zip (a :: ys) ++ [(a, b)] := by
        rw [cyclicPairs_concat]
        have hshape : (a :: (ys ++ [b])) = (a :: ys) ++ [b] := by simp
        rw [hshape, List.zip_append (by simp)]
        rfl
      have hrhs : cyclicPairs (a :: (ys ++ [b]))
          = (a, b) :: (ys ++ [b]).zip (a :: ys) := by
        have hshape : (a :: (ys ++ [b])) = (a :: ys) ++ [b] := by simp
        rw [hshape, cyclicPairs_concat]
        rw [show ((a :: ys) ++ [b]) = a :: (ys ++ [b]) by simp]
        rw [List.zip_cons_cons]
      rw [hlhs, hrhs]
      exact List.perm_append_singleton _ _

/-- Reversing both components of a zip of equally long lists reverses
the zip. -/
theorem zip_reverse_eq {α β : Type} (l₁ : List α) (l₂ : List β)
    (h : l₁.length = l₂.length) :
    (l₁.zip l₂).reverse = l₁.reverse.zip l₂.reverse := by
  apply List.ext_getElem
  · simp [List.length_zip, h]
  · intro i h1 h2
    have hil : i < l₁.length := by
      simp [List.length_zip, h] at h1
      omega
    have hjl : l₁.length - 1 - i < (l₁.zip l₂).length := by
      simp [List.length_zip, h]
      omega
    have hr1 : i < l₁.reverse.length := by simp; omega
    have hr2 : i < l₂.reverse.length := by simp [← h]; omega
    rw [List.getElem_reverse, List.getElem_zip, List.getElem_zip,
      List.getElem_reverse, List.getElem_reverse]
    have hlen : (l₁.zip l₂).length = l₁.length := by simp [List.length_zip, h]
    congr 2 <;> omega

/-- The edge list of a reversed polygon: the edges of the rotated
polygon, each reversed, in reverse order. -/
theorem cyclicPairs_reverse (l : List Coordinate) :
    cyclicPairs l.reverse = ((cyclicPairs (l.rotate 1)).map Prod.swap).reverse := by
  match l with
  | [] => rfl
  | a :: t =>
    rw [rotate_one_cons, cyclicPairs_concat, List.zip_swap]
    have hrev : (a :: t).reverse = t.reverse ++ [a] := by simp
    rw [hrev, cyclicPairs_concat]
    rw [zip_reverse_eq _ _ (by simp)]
    simp

/-- The `intersect` test does not depend on the direction of the edge:
when the crossing condition fails both directions give `false`, and
when it holds the two interpolated longitudes coincide. -/
theorem intersectTest_swap (point a b : Coordinate) :
    intersectTest point b a = intersectTest point a b := by
  rw [intersectTest, intersectTest, crossingCond, crossingCond]
  by_cases h1 : a.lat > point.lat <;> by_cases h2 : b.lat > point.lat
  · simp [h1, h2]
  · have hne : a.lat ≠ b.lat := by
      intro he
      rw [he] at h1
      exact h2 h1
    have d1 : a.lat - b.lat ≠ 0 := sub_ne_zero_of_ne hne
    have d2 : b.lat - a.lat ≠ 0 := sub_ne_zero_of_ne (Ne.symm hne)
    have hkey : (a.lng - b.lng) * (point.lat - b.lat) / (a.lat - b.lat) + b.lng
        = (b.lng - a.lng) * (point.lat - a.lat) / (b.lat - a.lat) + a.lng := by
      field_simp
      ring
    simp [h1, h2, hkey]
  · have hne : b.lat ≠ a.lat := by
      intro he
      rw [he] at h2
      exact h1 h2
    have d1 : a.lat - b.lat ≠ 0 := sub_ne_zero_of_ne (Ne.symm hne)
    have d2 : b.lat - a.lat ≠ 0 := sub_ne_zero_of_ne hne
    have hkey : (a.lng - b.lng) * (point.lat - b.lat) / (a.lat - b.lat) + b.lng
        = (b.lng - a.lng) * (point.lat - a.lat) / (b.lat - a.lat) + a.lng := by
      field_simp
      ring
    simp [h1, h2, hkey]
  · simp [h1, h2]

/-- The pairwise form of `intersectTest_swap`. -/
theorem edgeTest_swap (point : Coordinate) (e : Coordinate × Coordinate) :
    edgeTest point e.swap = edgeTest point e := by
  rcases e with ⟨x, y⟩
  exact intersectTest_swap point x y

/-- One-step rotation preserves the crossing count. -/
theorem crossNum_rotate_one (point : Coordinate) (l : List Coordinate) :
    crossNum point (l.rotate 1) = crossNum point l :=
  (cyclicPairs_rotate_one_perm l).countP_eq _

/-- Any rotation preserves the crossing count. -/
theorem crossNum_rotate (point : Coordinate) (l : List Coordinate) (k : Nat) :
    crossNum point (l.rotate k) = crossNum point l := by
  induction k with
  | zero => rw [List.rotate_zero]
  | succ k ih =>
    have hstep : l.rotate (k + 1) = (l.rotate k).rotate 1 := by
      rw [List.rotate_rotate]
    rw [hstep, crossNum_rotate_one, ih]

/-- Reversal preserves the crossing count. -/
theorem crossNum_reverse (point : Coordinate) (l : List Coordinate) :
    crossNum point l.reverse = crossNum point l := by
  rw [crossNum, cyclicPairs_reverse, List.countP_reverse, List.countP_map]
  have hfun : (edgeTest point ∘ Prod.swap) = edgeTest point := by
    funext e
    exact edgeTest_swap point e
  rw [hfun]
  exact (cyclicPairs_rotate_one_perm l).countP_eq _

/-- Appending a copy of the head adds one degenerate edge and
otherwise rotates the edge list, so the crossing count is unchanged. -/
theorem crossNum_close (point a : Coordinate) (t : List Coordinate) :
    crossNum point ((a :: t) ++ [a]) = crossNum point (a :: t) := by
  have h1 : cyclicPairs ((a :: t) ++ [a])
      = (a, a) :: cyclicPairs ((a :: t).rotate 1) := by
    rw [cyclicPairs_concat, rotate_one_cons, cyclicPairs_concat]
    rw [show ((a :: t) ++ [a]) = a :: (t ++ [a]) by simp, List.zip_cons_cons]
  have h0 : edgeTest point (a, a) = false := by
    rw [edgeTest, intersectTest, crossingCond]
    simp
  rw [crossNum, h1, List.countP_cons, h0]
  simp only [Bool.false_eq_true, if_false, Nat.add_zero]
  exact crossNum_rotate_one point (a :: t)

/-- Both endpoints of every loop edge are vertices of the polygon. -/
theorem mem_cyclicPairs (l : List Coordinate) (e : Coordinate × Coordinate)
    (he : e ∈ cyclicPairs l) : e.1 ∈ l ∧ e.2 ∈ l := by
  match l with
  | [] => simp [cyclicPairs] at he
  | a :: t =>
    rcases e with ⟨x, y⟩
    have he2 : (x, y) ∈ (a :: t).zip ((a :: t).getLastD a :: (a :: t).dropLast) := he
    have hm := List.of_mem_zip he2
    refine ⟨hm.1, ?_⟩
    rcases List.mem_cons.mp hm.2 with rfl | hy
    · have hml := List.getLastD_mem_cons (a :: t) a
      rcases List.mem_cons.mp hml with h1 | h1
      · rw [h1]
        exact List.mem_cons_self a t
      · exact h1
    · exact List.Sublist.mem hy (List.dropLast_sublist _)

/-- A point at or above every vertex latitude, or strictly below every
vertex latitude, sees no crossing edge. -/
theorem crossNum_eq_zero_of_level (point : Coordinate) (l : List Coordinate)
    (h : (∀ v ∈ l, v.lat ≤ point.lat) ∨ (∀ v ∈ l, point.lat < v.lat)) :
    crossNum point l = 0 := by
  rw [crossNum, List.countP_eq_zero]
  intro e he
  have hm := mem_cyclicPairs l e he
  rcases e with ⟨x, y⟩
  have hcc : crossingCond point x y = false := by
    rcases h with h | h
    · have hx : ¬ x.lat > point.lat := not_lt.mpr (h x hm.1)
      have hy : ¬ y.lat > point.lat := not_lt.mpr (h y hm.2)
      simp [crossingCond, hx, hy]
    · have hx : x.lat > point.lat := h x hm.1
      have hy : y.lat > point.lat := h y hm.2
      simp [crossingCond, hx, hy]
  simp [edgeTest, intersectTest, hcc]

/-- Explicitly closing the ring does not change containment. -/
theorem contains_close (point a : Coordinate) (t : List Coordinate) :
    is_point_in_polygon point ((a :: t) ++ [a])
      = is_point_in_polygon point (a :: t) := by
  rw [is_point_in_polygon_eq_parity, is_point_in_polygon_eq_parity, crossNum_close]
  rcases t with _ | ⟨b, t2⟩
  · simp
  rcases t2 with _ | ⟨c, t3⟩
  · have hab : crossNum point [a, b] % 2 = 0 := by
      have hcp : crossNum point [a, b]
          = List.countP (edgeTest point) [(a, b), (b, a)] := rfl
      rw [hcp, List.countP_cons, List.countP_cons, List.countP_nil]
      have hsw : edgeTest point (b, a) = edgeTest point (a, b) :=
        intersectTest_swap point a b
      cases hfire : edgeTest point (a, b) <;> simp [hsw, hfire]
    simp [hab]
  · have hg1 : decide (3 ≤ ((a :: b :: c :: t3) ++ [a]).length) = true := by
      simp only [decide_eq_true_eq, List.length_append, List.length_cons]
      omega
    have hg2 : decide (3 ≤ (a :: b :: c :: t3).length) = true := by
      simp only [decide_eq_true_eq, List.length_cons]
      omega
    rw [hg1, hg2]

/-! ### Claim theorems -/

/-- C1: for every point and every polygon with at least 3 vertices,
`is_point_in_polygon` returns the parity result of the specified
ray-casting algorithm (edge `i` joins vertex `i` to the previous
vertex, the last vertex wrapping to the first; an initially-false
`inside` flag is toggled exactly when the stated crossing and
interpolation condition holds; the flag is returned after all
edges). -/
theorem contains_follows_spec_ray_cast (point : Coordinate)
    (polygon : List Coordinate) (h : 3 ≤ polygon.length) :
    is_point_in_polygon point polygon = rayCastSpec point polygon :=
  is_point_in_polygon_eq_spec point polygon h

/-- Witness for C1: the unit square and its centroid. -/
theorem contains_follows_spec_ray_cast_app :
    3 ≤ ([⟨0, 0⟩, ⟨0, 1⟩, ⟨1, 1⟩, ⟨1, 0⟩] : List Coordinate).length ∧
    is_point_in_polygon ⟨1/2, 1/2⟩ [⟨0, 0⟩, ⟨0, 1⟩, ⟨1, 1⟩, ⟨1, 0⟩]
      = rayCastSpec ⟨1/2, 1/2⟩ [⟨0, 0⟩, ⟨0, 1⟩, ⟨1, 1⟩, ⟨1, 0⟩] :=
  ⟨by decide,
    contains_follows_spec_ray_cast ⟨1/2, 1/2⟩
      [⟨0, 0⟩, ⟨0, 1⟩, ⟨1, 1⟩, ⟨1, 0⟩] (by decide)⟩

/-- C2: for every point and every polygon with fewer than 3 vertices,
`is_point_in_polygon` returns `false` (and, being a total function,
raises no error). -/
theorem degenerate_polygon_contains_nothing (point : Coordinate)
    (polygon : List Coordinate) (h : polygon.length < 3) :
    is_point_in_polygon point polygon = false := by
  rw [is_point_in_polygon, if_pos h]

/-- Witness for C2: the empty polygon. -/
theorem degenerate_polygon_contains_nothing_app :
    ([] : List Coordinate).length < 3 ∧
    is_point_in_polygon ⟨1/2, 1/2⟩ [] = false :=
  ⟨by decide, degenerate_polygon_contains_nothing ⟨1/2, 1/2⟩ [] (by decide)⟩

/-- C5: whenever the crossing condition of the `intersect` expression
holds, the two vertex latitudes differ, so the divisor `yj - yi` of
the interpolation is nonzero and no division by zero can occur. -/
theorem crossing_condition_guards_division (point vi vj : Coordinate)
    (h : crossingCond point vi vj = true) :
    vi.lat ≠ vj.lat ∧ vj.lat - vi.lat ≠ 0 := by
  rw [crossingCond] at h
  by_cases h1 : vi.lat > point.lat <;> by_cases h2 : vj.lat > point.lat
  · simp [h1, h2] at h
  · have hne : vi.lat ≠ vj.lat := by
      intro he
      rw [he] at h1
      exact h2 h1
    exact ⟨hne, sub_ne_zero_of_ne fun he => hne (he.symm)⟩
  · have hne : vi.lat ≠ vj.lat := by
      intro he
      rw [← he] at h2
      exact h1 h2
    exact ⟨hne, sub_ne_zero_of_ne fun he => hne (he.symm)⟩
  · simp [h1, h2] at h

/-- Witness for C5: an edge genuinely crossing the ray. -/
theorem crossing_condition_guards_division_app :
    crossingCond ⟨0, 0⟩ ⟨1, 5⟩ ⟨-1, 7⟩ = true ∧
    ((⟨1, 5⟩ : Coordinate).lat ≠ (⟨-1, 7⟩ : Coordinate).lat ∧
      (⟨-1, 7⟩ : Coordinate).lat - (⟨1, 5⟩ : Coordinate).lat ≠ 0) :=
  ⟨by decide, crossing_condition_guards_division ⟨0, 0⟩ ⟨1, 5⟩ ⟨-1, 7⟩ (by decide)⟩

/-- C6: containment is invariant under any cyclic rotation of the
vertex list, and explicitly closing the ring by appending a copy of
the first vertex gives the same result as the open ring. -/
theorem contains_rotation_and_closure_invariant (point : Coordinate)
    (l : List Coordinate) (k : Nat) (a : Coordinate) (t : List Coordinate) :
    is_point_in_polygon point (l.rotate k) = is_point_in_polygon point l ∧
    is_point_in_polygon point ((a :: t) ++ [a])
      = is_point_in_polygon point (a :: t) := by
  refine ⟨?_, contains_close point a t⟩
  rw [is_point_in_polygon_eq_parity, is_point_in_polygon_eq_parity,
    List.length_rotate, crossNum_rotate]

/-- C7: containment is invariant under reversing the vertex list
(opposite winding direction of the same region). -/
theorem contains_reverse_invariant (point : Coordinate) (l : List Coordinate) :
    is_point_in_polygon point l.reverse = is_point_in_polygon point l := by
  rw [is_point_in_polygon_eq_parity, is_point_in_polygon_eq_parity,
    List.length_reverse, crossNum_reverse]

/-- C10: a point whose latitude is at or above every vertex latitude,
or strictly below every vertex latitude, is outside any polygon with
at least 3 vertices; in particular a point on the topmost horizontal
edge is classified outside. -/
theorem contains_false_outside_latitude_range (point : Coordinate)
    (polygon : List Coordinate) (h3 : 3 ≤ polygon.length)
    (h : (∀ v ∈ polygon, v.lat ≤ point.lat) ∨
      (∀ v ∈ polygon, point.lat < v.lat)) :
    is_point_in_polygon point polygon = false := by
  rw [is_point_in_polygon_eq_parity, crossNum_eq_zero_of_level point polygon h]
  simp

/-- Witness for C10: a point on the topmost horizontal edge of the
unit square. -/
theorem contains_false_outside_latitude_range_app :
    (3 ≤ ([⟨0, 0⟩, ⟨0, 1⟩, ⟨1, 1⟩, ⟨1, 0⟩] : List Coordinate).length ∧
      ((∀ v ∈ ([⟨0, 0⟩, ⟨0, 1⟩, ⟨1, 1⟩, ⟨1, 0⟩] : List Coordinate),
          v.lat ≤ (⟨1, 1/2⟩ : Coordinate).lat) ∨
        (∀ v ∈ ([⟨0, 0⟩, ⟨0, 1⟩, ⟨1, 1⟩, ⟨1, 0⟩] : List Coordinate),
          (⟨1, 1/2⟩ : Coordinate).lat < v.lat))) ∧
    is_point_in_polygon ⟨1, 1/2⟩ [⟨0, 0⟩, ⟨0, 1⟩, ⟨1, 1⟩, ⟨1, 0⟩] = false :=
  ⟨⟨by decide, Or.inl (by decide)⟩,
    contains_false_outside_latitude_range ⟨1, 1/2⟩
      [⟨0, 0⟩, ⟨0, 1⟩, ⟨1, 1⟩, ⟨1, 0⟩] (by decide) (Or.inl (by decide))⟩

/-- C3: `find_neighborhood` returns `none` exactly when no listed
polygon contains the point (in particular for the empty list), and any
returned name is the name of the earliest-listed containing
neighborhood: every earlier entry fails the containment test.  When
two overlapping neighborhoods both contain the point, the
earlier-listed one is therefore returned. -/
theorem find_neighborhood_first_match (point : Coordinate)
    (neighborhoods : List Neighborhood) :
    (find_neighborhood point neighborhoods = none ↔
      ∀ nb ∈ neighborhoods, is_point_in_polygon point nb.coordinates = false) ∧
    (∀ nm, find_neighborhood point neighborhoods = some nm →
      ∃ i nb, neighborhoods[i]? = some nb ∧
        is_point_in_polygon point nb.coordinates = true ∧
        nm = nb.name ∧
        ∀ prev ∈ neighborhoods.take i,
          is_point_in_polygon point prev.coordinates = false) := by
  induction neighborhoods with
  | nil =>
    refine ⟨by simp [find_neighborhood], ?_⟩
    intro nm hsome
    simp [find_neighborhood] at hsome
  | cons nb rest ih =>
    rcases ih with ⟨ih1, ih2⟩
    by_cases hb : is_point_in_polygon point nb.coordinates = true
    · refine ⟨?_, ?_⟩
      · constructor
        · intro hnone
          simp [find_neighborhood, hb] at hnone
        · intro hall
          have hcontra := hall nb (List.mem_cons_self _ _)
          rw [hb] at hcontra
          cases hcontra
      · intro nm hsome
        have hname : nb.name = nm := by
          simpa [find_neighborhood, hb] using hsome
        exact ⟨0, nb, by simp, hb, hname.symm, by simp⟩
    · have hstep : find_neighborhood point (nb :: rest)
          = find_neighborhood point rest := by
        simp [find_neighborhood, hb]
      refine ⟨?_, ?_⟩
      · rw [hstep]
        constructor
        · intro hnone nb2 hmem
          rcases List.mem_cons.mp hmem with rfl | hmem2
          · simpa using hb
          · exact (ih1.mp hnone) nb2 hmem2
        · intro hall
          exact ih1.mpr fun nb2 hmem => hall nb2 (List.mem_cons_of_mem _ hmem)
      · intro nm hsome
        rw [hstep] at hsome
        obtain ⟨i, nb2, hget, htrue, hname, hprev⟩ := ih2 nm hsome
        refine ⟨i + 1, nb2, by simpa using hget, htrue, hname, ?_⟩
        intro prev hmem
        rw [List.take_succ_cons] at hmem
        rcases List.mem_cons.mp hmem with rfl | hmem2
        · simpa using hb
        · exact hprev prev hmem2

/-- Witness for C3: two overlapping neighborhoods listed in order; the
instantiated property for a point inside both. -/
theorem find_neighborhood_first_match_app :
    find_neighborhood ⟨1/2, 1/2⟩
        [⟨"inner", [⟨0, 0⟩, ⟨0, 1⟩, ⟨1, 1⟩, ⟨1, 0⟩]⟩,
          ⟨"outer", [⟨-1, -1⟩, ⟨-1, 2⟩, ⟨2, 2⟩, ⟨2, -1⟩]⟩] = none ↔
      ∀ nb ∈ [⟨"inner", [⟨0, 0⟩, ⟨0, 1⟩, ⟨1, 1⟩, ⟨1, 0⟩]⟩,
          (⟨"outer", [⟨-1, -1⟩, ⟨-1, 2⟩, ⟨2, 2⟩, ⟨2, -1⟩]⟩ : Neighborhood)],
        is_point_in_polygon ⟨1/2, 1/2⟩ nb.coordinates = false :=
  (find_neighborhood_first_match ⟨1/2, 1/2⟩
    [⟨"inner", [⟨0, 0⟩, ⟨0, 1⟩, ⟨1, 1⟩, ⟨1, 0⟩]⟩,
      ⟨"outer", [⟨-1, -1⟩, ⟨-1, 2⟩, ⟨2, 2⟩, ⟨2, -1⟩]⟩]).1

/-- C4: `find_all_neighborhoods` returns exactly the names of the
neighborhoods whose polygons contain the point, in the supplied order
(so the empty list and the no-match case give the empty sequence). -/
theorem find_all_matches_exactly (point : Coordinate)
    (neighborhoods : List Neighborhood) :
    find_all_neighborhoods point neighborhoods
      = (neighborhoods.filter
          (fun nb => is_point_in_polygon point nb.coordinates)).map
        Neighborhood.name := by
  induction neighborhoods with
  | nil => rfl
  | cons nb rest ih =>
    by_cases hb : is_point_in_polygon point nb.coordinates
    · simp [find_all_neighborhoods, List.filter_cons, hb, ih]
    · simp [find_all_neighborhoods, List.filter_cons, hb, ih]

/-- C9: `find_neighborhood` returns `none` exactly when
`find_all_neighborhoods` returns the empty list, and in general
returns the head of `find_all_neighborhoods`' result. -/
theorem find_first_eq_head_of_find_all (point : Coordinate)
    (neighborhoods : List Neighborhood) :
    (find_neighborhood point neighborhoods = none ↔
      find_all_neighborhoods point neighborhoods = []) ∧
    find_neighborhood point neighborhoods
      = (find_all_neighborhoods point neighborhoods).head? := by
  have hmain : find_neighborhood point neighborhoods
      = (find_all_neighborhoods point neighborhoods).head? := by
    induction neighborhoods with
    | nil => rfl
    | cons nb rest ih =>
      by_cases hb : is_point_in_polygon point nb.coordinates
      · simp [find_neighborhood, find_all_neighborhoods, hb]
      · simp [find_neighborhood, find_all_neighborhoods, hb, ih]
  refine ⟨?_, hmain⟩
  rw [hmain]
  cases find_all_neighborhoods point neighborhoods <;> simp

/-- Witness for C9: the instantiated equivalence on a concrete
list. -/
theorem find_first_eq_head_of_find_all_app :
    find_neighborhood ⟨1/2, 1/2⟩ [⟨"sq", [⟨0, 0⟩, ⟨0, 1⟩, ⟨1, 1⟩, ⟨1, 0⟩]⟩]
      = (find_all_neighborhoods ⟨1/2, 1/2⟩
          [⟨"sq", [⟨0, 0⟩, ⟨0, 1⟩, ⟨1, 1⟩, ⟨1, 0⟩]⟩]).head? :=
  (find_first_eq_head_of_find_all ⟨1/2, 1/2⟩
    [⟨"sq", [⟨0, 0⟩, ⟨0, 1⟩, ⟨1, 1⟩, ⟨1, 0⟩]⟩]).2

/-- C8: at the modelled construction boundary, non-numeric input fails
fast with the `InvalidCoordinate` error kind (the only error kind),
and once both components are numeric the downstream resolution never
fails. -/
theorem coordinate_boundary_fail_fast (rlat rlng : RawValue)
    (neighborhoods : List Neighborhood) :
    (resolveRaw rlat rlng neighborhoods = .error .InvalidCoordinate ↔
      (rlat.isNumeric = false ∨ rlng.isNumeric = false)) ∧
    (rlat.isNumeric = true → rlng.isNumeric = true →
      ∃ result, resolveRaw rlat rlng neighborhoods = .ok result) := by
  cases rlat <;> cases rlng <;>
    simp [resolveRaw, mkCoordinate, RawValue.isNumeric]

/-- Witness for C8: numeric construction succeeds and reaches the
resolver; non-numeric construction fails with `InvalidCoordinate`. -/
theorem coordinate_boundary_fail_fast_app :
    (∃ result, resolveRaw (.num 1) (.num 2) [] = .ok result) ∧
    (resolveRaw (.nonNumeric "abc") (.num 2) [] = .error .InvalidCoordinate ↔
      ((RawValue.nonNumeric "abc").isNumeric = false ∨
        (RawValue.num 2).isNumeric = false)) :=
  ⟨(coordinate_boundary_fail_fast (.num 1) (.num 2) []).2 rfl rfl,
    (coordinate_boundary_fail_fast (.nonNumeric "abc") (.num 2) []).1⟩
